import Mathlib

/-
Verification of net/ieee802154/ieee802154_conn.c (NuttX IEEE 802.15.4
connection table): a fixed pool of connection records whose membership is
tracked by two FIFO doubly-linked queues (FREE and ACTIVE), a demultiplexer
that resolves an inbound frame to the first matching active connection, and
a cursor-style enumerator over the active list.

The shallow embedding represents each dq_queue_t as a Lean list of slot
indices (dq_addlast = append at the tail, dq_remfirst = pop the head,
dq_rem = unlink by identity), and the static connection array as a function
from slot index to record contents.  The semaphore only serialises the list
edits, so the sequential semantics of each operation is a plain function on
the pool state.
-/

namespace NuttxIEEE802154

/-- Modelled from the spec: the address-mode tag of
`enum ieee802154_addrmode_e` (declared in a header outside src/).  The spec
names three modes, NONE, SHORT and EXTENDED, and the code's switch has a
default branch for any other numeric value, so the tag is kept as a raw
`Nat` (the field is a `uint8_t` in the connection record).  The numerals
follow IEEE 802.15.4 (0 = none, 2 = short, 3 = extended); only their
distinctness matters to the code. -/
def ADDRMODE_NONE : Nat := 0

/-- Modelled from the spec: the SHORT address-mode tag (16-bit identifier). -/
def ADDRMODE_SHORT : Nat := 2

/-- Modelled from the spec: the EXTENDED address-mode tag (64-bit identifier). -/
def ADDRMODE_EXTENDED : Nat := 3

/-- Modelled from the spec: a frame-side address (`struct ieee802154_addr_s`,
declared outside src/): "an address-mode tag plus a 16-bit or 64-bit value".
The short and extended identifiers occupy one value slot (in the C struct the
`saddr`/`eaddr` members alias one union region), modelled as a single `Nat`
whose low 16 bits are read by a short-address access and whose low 64 bits
are read by an extended-address access. -/
structure Addr where
  mode : Nat
  value : Nat
  deriving DecidableEq, Repr

/-- Modelled from the spec: a socket-side bound address
(`struct ieee802154_saddr_s`, declared outside src/): the same mode tag plus
identifier value, as stored in a connection record's `laddr`/`raddr`. -/
structure SAddr where
  s_mode : Nat
  s_value : Nat
  deriving DecidableEq, Repr

/-- Modelled from the spec: `IEEE802154_SADDRCMP` compares two short (16-bit)
identifiers, i.e. the low 16 bits of the stored values. -/
def saddrCmp (x y : Nat) : Bool := decide (x % 2 ^ 16 = y % 2 ^ 16)

/-- Modelled from the spec: `IEEE802154_EADDRCMP` compares two extended
(64-bit) identifiers, i.e. the low 64 bits of the stored values. -/
def eaddrCmp (x y : Nat) : Bool := decide (x % 2 ^ 64 = y % 2 ^ 64)

/-- Modelled from the spec: the frame metadata
(`struct ieee802154_data_ind_s`, declared outside src/) as used by the
demultiplexer: the destination and source addresses of the inbound frame. -/
structure DataInd where
  dest : Addr
  src : Addr
  deriving DecidableEq, Repr

/-- The mutable contents of one `struct ieee802154_conn_s` record: bound
local address `laddr`, connected remote address `raddr`, and reference
count `crefs`.  (The intrusive `node` link is represented by list
membership in the pool state instead.) -/
structure Conn where
  laddr : SAddr
  raddr : SAddr
  crefs : Nat
  deriving DecidableEq, Repr

/-- The global state of ieee802154_conn.c: the static array
`g_ieee802154_connections` (record contents per slot index), the free queue
`g_free_ieee802154_connections` and the active queue
`g_active_ieee802154_connections`, each queue a FIFO list of slot indices
(head first). -/
structure PoolState where
  conns : Nat → Conn
  free : List Nat
  active : List Nat

/-- `ieee802154_initialize`: resets both queues and links each of the `C`
pre-allocated records into the free list in array order
(`dq_addlast(&g_ieee802154_connections[i].node, ...)` for `i = 0 .. C-1`).
The record contents themselves are not touched, so they are a parameter
(`conns0`: the load-time contents of the static array). -/
def ieee802154_initialize (C : Nat) (conns0 : Nat → Conn) : PoolState :=
  { conns := conns0, free := List.range C, active := [] }

/-- `ieee802154_alloc`: pops the head of the free queue (`dq_remfirst`); if a
record was obtained, appends it to the tail of the active queue
(`dq_addlast`) and returns it, otherwise returns NULL (`Option.none`).
The result pairs the returned handle with the post-state. -/
def ieee802154_alloc (s : PoolState) : Option Nat × PoolState :=
  match s.free with
  | [] => (Option.none, s)
  | c :: rest =>
      (Option.some c, { s with free := rest, active := s.active ++ [c] })

/-- `ieee802154_free`: removes the record from the active queue (`dq_rem`,
an unlink by identity) and appends it to the tail of the free queue
(`dq_addlast`).  The record contents (addresses, crefs) are not modified.
The C code's `DEBUGASSERT(conn->crefs == 0)` is a caller contract, stated as
a hypothesis of the theorems below. -/
def ieee802154_free (s : PoolState) (c : Nat) : PoolState :=
  { s with active := s.active.erase c, free := s.free ++ [c] }

/-- The loop body of `ieee802154_active`, recursing along the active queue
from the head (`conn = head; conn != NULL; conn = conn->node.flink`):
  - `continue` if `meta->dest.mode != conn->laddr.s_mode`;
  - `continue` if the mode is SHORT and
    `!IEEE802154_SADDRCMP(meta->dest.saddr, conn->laddr.s_saddr)`;
  - `continue` if the mode is EXTENDED and
    `!IEEE802154_EADDRCMP(meta->dest.saddr, conn->laddr.s_eaddr)`
    (the frame-side short/extended members alias one union region, so the
    extended read of `meta->dest` is its stored identifier value);
  - then switch on `conn->raddr.s_mode`:
    NONE returns `conn`; SHORT returns `conn` iff
    `IEEE802154_SADDRCMP(meta->dest.saddr, conn->raddr.s_saddr)` else falls
    through to the next record; EXTENDED returns `conn` iff
    `IEEE802154_EADDRCMP(meta->dest.eaddr, conn->raddr.s_eaddr)` else falls
    through; any other mode logs an error and returns NULL, aborting the
    whole scan. -/
def scanActive (conns : Nat → Conn) (meta : DataInd) : List Nat → Option Nat
  | [] => Option.none
  | c :: rest =>
      let cn := conns c
      if meta.dest.mode ≠ cn.laddr.s_mode then
        scanActive conns meta rest
      else if meta.dest.mode = ADDRMODE_SHORT ∧
          saddrCmp meta.dest.value cn.laddr.s_value = false then
        scanActive conns meta rest
      else if meta.dest.mode = ADDRMODE_EXTENDED ∧
          eaddrCmp meta.dest.value cn.laddr.s_value = false then
        scanActive conns meta rest
      else if cn.raddr.s_mode = ADDRMODE_NONE then
        Option.some c
      else if cn.raddr.s_mode = ADDRMODE_SHORT then
        if saddrCmp meta.dest.value cn.raddr.s_value then Option.some c
        else scanActive conns meta rest
      else if cn.raddr.s_mode = ADDRMODE_EXTENDED then
        if eaddrCmp meta.dest.value cn.raddr.s_value then Option.some c
        else scanActive conns meta rest
      else
        Option.none

/-- `ieee802154_active`: scans the active queue from the head for the first
connection matching the frame metadata `meta`.  The function only reads the
global state, so its state-passing translation returns the state unchanged;
the handle component is `scanActive` applied to the active queue. -/
def ieee802154_active (s : PoolState) (meta : DataInd) :
    Option Nat × PoolState :=
  (scanActive s.conns meta s.active, s)

/-- The successor read `conn->node.flink` for a node `c` of the active
queue: the element immediately after the first occurrence of `c` (pointer
identity; queue nodes are distinct), `Option.none` past the tail. -/
def nextAfter : List Nat → Nat → Option Nat
  | [], _ => Option.none
  | x :: rest, c => if x = c then rest.head? else nextAfter rest c

/-- `ieee802154_nextconn`: with a NULL argument returns the head of the
active queue, otherwise returns `conn->node.flink`, the link immediately
following `conn` in the active queue.  Read-only, so the state-passing
translation returns the state unchanged. -/
def ieee802154_nextconn (s : PoolState) (prev : Option Nat) :
    Option Nat × PoolState :=
  match prev with
  | Option.none => (s.active.head?, s)
  | Option.some c => (nextAfter s.active c, s)

/-- Iterated application of `ieee802154_alloc` (keeping only the state),
modelling `n` successive acquire calls with no intervening release. -/
def allocIter : Nat → PoolState → PoolState
  | 0, s => s
  | n + 1, s => (ieee802154_alloc (allocIter n s)).2

/-- The pool states reachable from `ieee802154_initialize` by any sequence
of acquire and release operations.  A release step carries the caller
contract of `ieee802154_free`: the handle is currently active and its
reference count is zero (`DEBUGASSERT(conn->crefs == 0)`); `dq_rem` on a
node outside the queue is undefined behaviour in C, so it is not a step. -/
inductive Reachable (C : Nat) : PoolState → Prop
  | init (conns0 : Nat → Conn) :
      Reachable C ( ieee802154_initialize C conns0)
  | alloc (s : PoolState) :
      Reachable C s → Reachable C (ieee802154_alloc s).2
  | dealloc (s : PoolState) (c : Nat) :
      Reachable C s → c ∈ s.active → (s.conns c).crefs = 0 →
      Reachable C (ieee802154_free s c)

/-- The membership invariant: the free and active queues together hold each
of the `C` slot indices exactly once. -/
def poolInv (C : Nat) (s : PoolState) : Prop :=
  (s.free ++ s.active).Perm (List.range C)

/-- The enumeration loop built on `ieee802154_nextconn`: starting from a
previous handle (`Option.none` to start at the head), collect the handles
returned by successive calls, each call fed the previous result, until the
function returns NULL.  `fuel` bounds the number of calls so the loop is
structurally recursive; `active.length + 1` calls suffice for a full
traversal. -/
def iterNext (s : PoolState) : Nat → Option Nat → List Nat
  | 0, _ => []
  | n + 1, prev =>
      match (ieee802154_nextconn s prev).1 with
      | Option.none => []
      | Option.some c => c :: iterNext s n (Option.some c)

/-- Concrete fixture: a blank connection record (all modes NONE, crefs 0). -/
def conn0 : Conn :=
  { laddr := { s_mode := ADDRMODE_NONE, s_value := 0 },
    raddr := { s_mode := ADDRMODE_NONE, s_value := 0 },
    crefs := 0 }

/-- Concrete fixture: bound to local short address 0x1234, unconnected
(wildcard remote). -/
def connA : Conn :=
  { laddr := { s_mode := ADDRMODE_SHORT, s_value := 0x1234 },
    raddr := { s_mode := ADDRMODE_NONE, s_value := 0 },
    crefs := 0 }

/-- Concrete fixture: local short 0x1234, remote short 0x5678. -/
def connB : Conn :=
  { laddr := { s_mode := ADDRMODE_SHORT, s_value := 0x1234 },
    raddr := { s_mode := ADDRMODE_SHORT, s_value := 0x5678 },
    crefs := 0 }

/-- Concrete fixture: local short 0x1234, remote short 0x1234. -/
def connB2 : Conn :=
  { laddr := { s_mode := ADDRMODE_SHORT, s_value := 0x1234 },
    raddr := { s_mode := ADDRMODE_SHORT, s_value := 0x1234 },
    crefs := 0 }

/-- Concrete fixture: local extended 0xAABB, remote extended 0xCCDD. -/
def connC : Conn :=
  { laddr := { s_mode := ADDRMODE_EXTENDED, s_value := 0xAABB },
    raddr := { s_mode := ADDRMODE_EXTENDED, s_value := 0xCCDD },
    crefs := 0 }

/-- Concrete fixture: local extended 0xAABB, remote extended 0xAABB. -/
def connC2 : Conn :=
  { laddr := { s_mode := ADDRMODE_EXTENDED, s_value := 0xAABB },
    raddr := { s_mode := ADDRMODE_EXTENDED, s_value := 0xAABB },
    crefs := 0 }

/-- Concrete fixture: local short 0x1234 but an invalid remote address
mode (7, none of NONE/SHORT/EXTENDED). -/
def connBad : Conn :=
  { laddr := { s_mode := ADDRMODE_SHORT, s_value := 0x1234 },
    raddr := { s_mode := 7, s_value := 0 },
    crefs := 0 }

/-- Concrete fixture: frame metadata destined for short address 0x1234. -/
def metaS : DataInd :=
  { dest := { mode := ADDRMODE_SHORT, value := 0x1234 },
    src := { mode := ADDRMODE_NONE, value := 0 } }

/-- Concrete fixture: frame metadata destined for extended address 0xAABB. -/
def metaE : DataInd :=
  { dest := { mode := ADDRMODE_EXTENDED, value := 0xAABB },
    src := { mode := ADDRMODE_NONE, value := 0 } }

/-- Concrete fixture: a freshly initialized pool of capacity 1. -/
def pool1 : PoolState := ieee802154_initialize 1 (fun _ => conn0)

/-- Concrete fixture: a freshly initialized pool of capacity 2. -/
def pool2 : PoolState := ieee802154_initialize 2 (fun _ => conn0)

/-- Concrete fixture: a pool state with slots 0 and 1 active. -/
def poolF : PoolState :=
  { conns := fun _ => conn0, free := [], active := [0, 1] }

/-- Concrete fixture: a pool state with the single active slot 0 bound as
`connA`. -/
def poolM : PoolState :=
  { conns := fun _ => connA, free := [], active := [0] }

/-- Concrete fixture: slot 0 has an invalid remote mode, every other slot
is `connA`. -/
def cBad : Nat → Conn := fun i => if i = 0 then connBad else connA

/-- The handle returned by `ieee802154_alloc` is the head of the free
queue (`dq_remfirst`), NULL when the queue is empty. -/
theorem alloc_fst (s : PoolState) : (ieee802154_alloc s).1 = s.free.head? := by
  cases h : s.free <;> simp [ieee802154_alloc, h]

/-- Characterization of `n` successive acquire calls: the first `n` slots
of the free queue move, in order, to the tail of the active queue; record
contents are untouched. -/
theorem allocIter_eq (n : Nat) (s : PoolState) :
    allocIter n s =
      { conns := s.conns, free := s.free.drop n,
        active := s.active ++ s.free.take n } := by
  induction n with
  | zero => simp [allocIter]
  | succ n ih =>
      show (ieee802154_alloc (allocIter n s)).2 = _
      rw [ih]
      rcases h : s.free.drop n with _ | ⟨c, rest⟩
      · have hle : s.free.length ≤ n := List.drop_eq_nil_iff.mp h
        have h1 : s.free.drop (n + 1) = [] :=
          List.drop_eq_nil_of_le (Nat.le_succ_of_le hle)
        have h2 : s.free.take n = s.free := List.take_of_length_le hle
        have h3 : s.free.take (n + 1) = s.free :=
          List.take_of_length_le (Nat.le_succ_of_le hle)
        simp [ieee802154_alloc, h, h1, h2, h3]
      · have hn : n < s.free.length := by
          by_contra hc
          rw [List.drop_eq_nil_of_le (Nat.le_of_not_lt hc)] at h
          exact List.noConfusion h
        have hg := List.drop_eq_getElem_cons hn
        rw [h] at hg
        injection hg with hc1 hc2
        have ht : s.free.take (n + 1) = s.free.take n ++ [c] := by
          rw [List.take_succ, List.getElem?_eq_getElem hn, ← hc1]
          rfl
        simp [ieee802154_alloc, h, ht, hc2, List.append_assoc]

/-- Every state reachable by acquire/release steps satisfies the
membership invariant: FREE and ACTIVE together are a permutation of the
slot indices `0 .. C-1`. -/
theorem reachable_inv {C : Nat} {s : PoolState} (h : Reachable C s) :
    poolInv C s := by
  induction h with
  | init conns0 =>
      simp [poolInv, ieee802154_initialize]
  | alloc s hs ih =>
      rcases h : s.free with _ | ⟨c, rest⟩
      · have h2 : (ieee802154_alloc s).2 = s := by simp [ieee802154_alloc, h]
        rwa [h2]
      · have h2 : (ieee802154_alloc s).2 =
            { s with free := rest, active := s.active ++ [c] } := by
          simp [ieee802154_alloc, h]
        rw [h2]
        unfold poolInv at ih ⊢
        rw [h] at ih
        exact ((List.Perm.append_left rest
          (List.perm_append_singleton c s.active)).trans
            List.perm_middle).trans ih
  | dealloc s c hs hc hcref ih =>
      unfold poolInv at ih ⊢
      have hp : List.Perm s.active (c :: s.active.erase c) :=
        List.perm_cons_erase hc
      have heq : (ieee802154_free s c).free ++ (ieee802154_free s c).active =
          s.free ++ (c :: s.active.erase c) := by
        show (s.free ++ [c]) ++ s.active.erase c = _
        rw [List.append_assoc]
        rfl
      rw [heq]
      exact (List.Perm.append_left s.free hp.symm).trans ih

/-- The membership invariant implies that the concatenation of the two
queues has no duplicate slot. -/
theorem inv_nodup {C : Nat} {s : PoolState} (h : poolInv C s) :
    (s.free ++ s.active).Nodup :=
  (List.Perm.nodup_iff h).mpr (List.nodup_range C)

/-- A candidate that passes the local-address filter reduces the scan to
the remote-address switch of `ieee802154_active`. -/
theorem scanActive_cons_of_local_pass (conns : Nat → Conn) (meta : DataInd)
    (c : Nat) (rest : List Nat)
    (hmode : meta.dest.mode = (conns c).laddr.s_mode)
    (hshort : meta.dest.mode = ADDRMODE_SHORT →
      saddrCmp meta.dest.value (conns c).laddr.s_value = true)
    (hext : meta.dest.mode = ADDRMODE_EXTENDED →
      eaddrCmp meta.dest.value (conns c).laddr.s_value = true) :
    scanActive conns meta (c :: rest) =
      (if (conns c).raddr.s_mode = ADDRMODE_NONE then Option.some c
       else if (conns c).raddr.s_mode = ADDRMODE_SHORT then
         (if saddrCmp meta.dest.value (conns c).raddr.s_value = true then
            Option.some c
          else scanActive conns meta rest)
       else if (conns c).raddr.s_mode = ADDRMODE_EXTENDED then
         (if eaddrCmp meta.dest.value (conns c).raddr.s_value = true then
            Option.some c
          else scanActive conns meta rest)
       else Option.none) := by
  have h2 : ¬(meta.dest.mode = ADDRMODE_SHORT ∧
      saddrCmp meta.dest.value (conns c).laddr.s_value = false) := by
    rintro ⟨ha, hb⟩
    rw [hshort ha] at hb
    exact Bool.noConfusion hb
  have h3 : ¬(meta.dest.mode = ADDRMODE_EXTENDED ∧
      eaddrCmp meta.dest.value (conns c).laddr.s_value = false) := by
    rintro ⟨ha, hb⟩
    rw [hext ha] at hb
    exact Bool.noConfusion hb
  simp only [scanActive]
  rw [if_neg (not_not_intro hmode), if_neg h2, if_neg h3]

/-- Any handle returned by the scan of `ieee802154_active` is a member of
the scanned list. -/
theorem scanActive_mem (conns : Nat → Conn) (meta : DataInd) :
    ∀ (l : List Nat) (c : Nat),
      scanActive conns meta l = Option.some c → c ∈ l := by
  intro l
  induction l with
  | nil => intro c h; exact Option.noConfusion h
  | cons a rest ih =>
      intro c h
      simp only [scanActive] at h
      split_ifs at h
      all_goals
        first
        | exact List.mem_cons_of_mem a (ih c h)
        | (injection h with h; exact h ▸ List.mem_cons_self a rest)

/-- The `flink` successor of a node of a duplicate-free queue: decomposing
the queue around the node, the successor is the head of the suffix. -/
theorem nextAfter_eq (l1 : List Nat) (c : Nat) (l2 : List Nat)
    (hnd : (l1 ++ c :: l2).Nodup) :
    nextAfter (l1 ++ c :: l2) c = l2.head? := by
  induction l1 with
  | nil => simp [nextAfter]
  | cons x l1 ih =>
      have hx : x ≠ c := by
        have hmem : x ∉ l1 ++ c :: l2 := (List.nodup_cons.mp hnd).1
        intro he
        exact hmem (by
          rw [he]
          exact List.mem_append_right l1 (List.mem_cons_self c l2))
      rw [List.cons_append]
      simp only [nextAfter]
      rw [if_neg hx]
      exact ih (List.nodup_cons.mp hnd).2

/-- Feeding `ieee802154_nextconn` its own results from a node `c` of the
active queue yields exactly the suffix of the queue after `c`. -/
theorem iterNext_spec (s : PoolState) :
    ∀ (l2 l1 : List Nat) (c : Nat), s.active = l1 ++ c :: l2 →
      s.active.Nodup →
      iterNext s (l2.length + 1) (Option.some c) = l2 := by
  intro l2
  induction l2 with
  | nil =>
      intro l1 c hact hnd
      have h1 : (ieee802154_nextconn s (Option.some c)).1 = Option.none := by
        show nextAfter s.active c = Option.none
        rw [hact, nextAfter_eq l1 c [] (hact ▸ hnd)]
        rfl
      rw [iterNext, h1]
  | cons d l2 ih =>
      intro l1 c hact hnd
      have h1 : (ieee802154_nextconn s (Option.some c)).1 = Option.some d := by
        show nextAfter s.active c = Option.some d
        rw [hact, nextAfter_eq l1 c (d :: l2) (hact ▸ hnd)]
        rfl
      rw [iterNext, h1]
      have hact' : s.active = (l1 ++ [c]) ++ d :: l2 := by
        rw [hact, List.append_assoc]
        rfl
      show d :: iterNext s (l2.length + 1) (Option.some d) = d :: l2
      rw [ih (l1 ++ [c]) d hact' hnd]

/-- Iterating `ieee802154_nextconn` from NULL with enough fuel reproduces
the whole active queue in order. -/
theorem iterNext_all (s : PoolState) (hnd : s.active.Nodup) :
    iterNext s (s.active.length + 1) Option.none = s.active := by
  rcases h : s.active with _ | ⟨a, rest⟩
  · have h1 : (ieee802154_nextconn s Option.none).1 = Option.none := by
      show s.active.head? = Option.none
      rw [h]
      rfl
    rw [iterNext, h1]
  · have h1 : (ieee802154_nextconn s Option.none).1 = Option.some a := by
      show s.active.head? = Option.some a
      rw [h]
      rfl
    rw [iterNext, h1]
    show a :: iterNext s (rest.length + 1) (Option.some a) = a :: rest
    rw [iterNext_spec s rest [] a (by rw [h]; rfl) hnd]

/-- C1: for every frame metadata and every endpoint scanned by
`ieee802154_active`, the local-address filter rejects the endpoint (the
scan moves past it) if the frame's destination mode differs from the
endpoint's local-address mode; if the mode is SHORT it rejects unless the
frame's destination short value equals the endpoint's local short value;
and if the mode is EXTENDED it rejects unless the frame's destination
extended value equals the endpoint's local extended value. -/
theorem active_local_filter (conns : Nat → Conn) (meta : DataInd)
    (c : Nat) (rest : List Nat) :
    (meta.dest.mode ≠ (conns c).laddr.s_mode →
        scanActive conns meta (c :: rest) = scanActive conns meta rest) ∧
      (meta.dest.mode = ADDRMODE_SHORT →
        saddrCmp meta.dest.value (conns c).laddr.s_value = false →
        scanActive conns meta (c :: rest) = scanActive conns meta rest) ∧
      (meta.dest.mode = ADDRMODE_EXTENDED →
        eaddrCmp meta.dest.value (conns c).laddr.s_value = false →
        scanActive conns meta (c :: rest) = scanActive conns meta rest) := by
  refine ⟨fun h1 => ?_, fun hm hcmp => ?_, fun hm hcmp => ?_⟩
  · simp only [scanActive]
    rw [if_pos h1]
  · by_cases h1 : meta.dest.mode ≠ (conns c).laddr.s_mode
    · simp only [scanActive]
      rw [if_pos h1]
    · simp only [scanActive]
      rw [if_neg h1, if_pos ⟨hm, hcmp⟩]
  · by_cases h1 : meta.dest.mode ≠ (conns c).laddr.s_mode
    · simp only [scanActive]
      rw [if_pos h1]
    · have h2 : ¬(meta.dest.mode = ADDRMODE_SHORT ∧
          saddrCmp meta.dest.value (conns c).laddr.s_value = false) := by
        rintro ⟨ha, _⟩
        rw [hm] at ha
        exact absurd ha (by decide)
      simp only [scanActive]
      rw [if_neg h1, if_neg h2, if_pos ⟨hm, hcmp⟩]

/-- C1 witness: concrete instances of the three rejection cases — a frame
with extended destination mode against a short-bound endpoint, a frame
with a different short destination value, and a frame with a different
extended destination value. -/
theorem active_local_filter_witness :
    scanActive (fun _ => connA) metaE [0] = scanActive (fun _ => connA) metaE [] ∧
      scanActive (fun _ => connB)
          { dest := { mode := ADDRMODE_SHORT, value := 0x9999 },
            src := { mode := ADDRMODE_NONE, value := 0 } } [0] =
        scanActive (fun _ => connB)
          { dest := { mode := ADDRMODE_SHORT, value := 0x9999 },
            src := { mode := ADDRMODE_NONE, value := 0 } } [] ∧
      scanActive (fun _ => connC)
          { dest := { mode := ADDRMODE_EXTENDED, value := 1 },
            src := { mode := ADDRMODE_NONE, value := 0 } } [0] =
        scanActive (fun _ => connC)
          { dest := { mode := ADDRMODE_EXTENDED, value := 1 },
            src := { mode := ADDRMODE_NONE, value := 0 } } [] :=
  ⟨(active_local_filter (fun _ => connA) metaE 0 []).1 (by decide),
    (active_local_filter (fun _ => connB)
      { dest := { mode := ADDRMODE_SHORT, value := 0x9999 },
        src := { mode := ADDRMODE_NONE, value := 0 } } 0 []).2.1
      (by decide) (by decide),
    (active_local_filter (fun _ => connC)
      { dest := { mode := ADDRMODE_EXTENDED, value := 1 },
        src := { mode := ADDRMODE_NONE, value := 0 } } 0 []).2.2
      (by decide) (by decide)⟩

/-- C2: for every endpoint that passes the local-address filter of
`ieee802154_active`: remote mode NONE accepts immediately; remote mode
SHORT accepts iff the frame's destination short value equals the remote
short value, otherwise the scan moves on; remote mode EXTENDED accepts iff
the frame's destination extended value equals the remote extended value,
otherwise the scan moves on.  The comparisons use the frame's destination
field (`meta.dest`), not its source field; acceptance at the head of the
list means the first matching endpoint in ACTIVE insertion order is the
result. -/
theorem active_remote_filter (conns : Nat → Conn) (meta : DataInd)
    (c : Nat) (rest : List Nat)
    (hmode : meta.dest.mode = (conns c).laddr.s_mode)
    (hshort : meta.dest.mode = ADDRMODE_SHORT →
      saddrCmp meta.dest.value (conns c).laddr.s_value = true)
    (hext : meta.dest.mode = ADDRMODE_EXTENDED →
      eaddrCmp meta.dest.value (conns c).laddr.s_value = true) :
    ((conns c).raddr.s_mode = ADDRMODE_NONE →
        scanActive conns meta (c :: rest) = Option.some c) ∧
      ((conns c).raddr.s_mode = ADDRMODE_SHORT →
        saddrCmp meta.dest.value (conns c).raddr.s_value = true →
        scanActive conns meta (c :: rest) = Option.some c) ∧
      ((conns c).raddr.s_mode = ADDRMODE_SHORT →
        saddrCmp meta.dest.value (conns c).raddr.s_value = false →
        scanActive conns meta (c :: rest) = scanActive conns meta rest) ∧
      ((conns c).raddr.s_mode = ADDRMODE_EXTENDED →
        eaddrCmp meta.dest.value (conns c).raddr.s_value = true →
        scanActive conns meta (c :: rest) = Option.some c) ∧
      ((conns c).raddr.s_mode = ADDRMODE_EXTENDED →
        eaddrCmp meta.dest.value (conns c).raddr.s_value = false →
        scanActive conns meta (c :: rest) = scanActive conns meta rest) := by
  rw [scanActive_cons_of_local_pass conns meta c rest hmode hshort hext]
  refine ⟨fun h0 => by rw [if_pos h0], fun h1 hcmp => ?_, fun h1 hcmp => ?_,
    fun h1 hcmp => ?_, fun h1 hcmp => ?_⟩
  · rw [if_neg (by rw [h1]; decide), if_pos h1, if_pos hcmp]
  · rw [if_neg (by rw [h1]; decide), if_pos h1, if_neg (by rw [hcmp]; decide)]
  · rw [if_neg (by rw [h1]; decide), if_neg (by rw [h1]; decide), if_pos h1,
      if_pos hcmp]
  · rw [if_neg (by rw [h1]; decide), if_neg (by rw [h1]; decide), if_pos h1,
      if_neg (by rw [hcmp]; decide)]

/-- C2 witness: concrete instances of the five branches — wildcard accept,
short-peer accept and reject, extended-peer accept and reject. -/
theorem active_remote_filter_witness :
    scanActive (fun _ => connA) metaS [0] = Option.some 0 ∧
      scanActive (fun _ => connB2) metaS [0] = Option.some 0 ∧
      scanActive (fun _ => connB) metaS [0] =
        scanActive (fun _ => connB) metaS [] ∧
      scanActive (fun _ => connC2) metaE [0] = Option.some 0 ∧
      scanActive (fun _ => connC) metaE [0] =
        scanActive (fun _ => connC) metaE [] :=
  ⟨(active_remote_filter (fun _ => connA) metaS 0 []
      (by decide) (by decide) (by decide)).1 (by decide),
    (active_remote_filter (fun _ => connB2) metaS 0 []
      (by decide) (by decide) (by decide)).2.1 (by decide) (by decide),
    (active_remote_filter (fun _ => connB) metaS 0 []
      (by decide) (by decide) (by decide)).2.2.1 (by decide) (by decide),
    (active_remote_filter (fun _ => connC2) metaE 0 []
      (by decide) (by decide) (by decide)).2.2.2.1 (by decide) (by decide),
    (active_remote_filter (fun _ => connC) metaE 0 []
      (by decide) (by decide) (by decide)).2.2.2.2 (by decide) (by decide)⟩

/-- C3: if the scan of `ieee802154_active` reaches an endpoint that passed
the local-address filter and whose remote-address mode is none of NONE,
SHORT or EXTENDED, the entire scan returns no match immediately, for every
remainder of the active list (in particular even when a later endpoint
would match). -/
theorem active_invalid_remote_aborts (conns : Nat → Conn) (meta : DataInd)
    (c : Nat) (rest : List Nat)
    (hmode : meta.dest.mode = (conns c).laddr.s_mode)
    (hshort : meta.dest.mode = ADDRMODE_SHORT →
      saddrCmp meta.dest.value (conns c).laddr.s_value = true)
    (hext : meta.dest.mode = ADDRMODE_EXTENDED →
      eaddrCmp meta.dest.value (conns c).laddr.s_value = true)
    (h0 : (conns c).raddr.s_mode ≠ ADDRMODE_NONE)
    (h2 : (conns c).raddr.s_mode ≠ ADDRMODE_SHORT)
    (h3 : (conns c).raddr.s_mode ≠ ADDRMODE_EXTENDED) :
    scanActive conns meta (c :: rest) = Option.none := by
  rw [scanActive_cons_of_local_pass conns meta c rest hmode hshort hext,
    if_neg h0, if_neg h2, if_neg h3]

/-- C3 witness: slot 0 matches locally but has invalid remote mode 7, so
the scan of [0, 1] aborts with no match, even though slot 1 alone would
match the same frame. -/
theorem active_invalid_remote_aborts_witness :
    scanActive cBad metaS [0, 1] = Option.none ∧
      scanActive cBad metaS [1] = Option.some 1 :=
  ⟨active_invalid_remote_aborts cBad metaS 0 [1]
      (by decide) (by decide) (by decide) (by decide) (by decide) (by decide),
    by decide⟩

/-- C4: starting from the initialized pool of capacity `C`, each of the
first `C` acquire calls succeeds, the free queue is then empty and the
(C+1)-th acquire returns no value; after one release of any active slot,
the next acquire succeeds. -/
theorem alloc_capacity (C : Nat) (conns0 : Nat → Conn) (k : Nat) (c : Nat)
    (hk : k < C)
    (_hc : c ∈ (allocIter C ( ieee802154_initialize C conns0)).active) :
    ((ieee802154_alloc (allocIter k ( ieee802154_initialize C conns0))).1).isSome
        = true ∧
      (allocIter C ( ieee802154_initialize C conns0)).free = [] ∧
      (ieee802154_alloc (allocIter C ( ieee802154_initialize C conns0))).1
        = Option.none ∧
      ((ieee802154_alloc (ieee802154_free
          (allocIter C ( ieee802154_initialize C conns0)) c)).1).isSome
        = true := by
  have hK : ∀ n, allocIter n ( ieee802154_initialize C conns0) =
      { conns := conns0, free := (List.range C).drop n,
        active := (List.range C).take n } := by
    intro n
    rw [allocIter_eq]
    simp [ ieee802154_initialize]
  have hCnil : (List.range C).drop C = [] :=
    List.drop_eq_nil_of_le (by rw [List.length_range])
  refine ⟨?_, ?_, ?_, ?_⟩
  · rw [hK k, alloc_fst]
    show ((List.range C).drop k).head?.isSome = true
    rw [Bool.eq_iff_iff, List.head?_isSome]
    refine ⟨fun _ => rfl, fun _ hnil => ?_⟩
    have := List.drop_eq_nil_iff.mp hnil
    rw [List.length_range] at this
    exact absurd hk (Nat.not_lt_of_le this)
  · rw [hK C]
    exact hCnil
  · rw [hK C, alloc_fst]
    show ((List.range C).drop C).head? = Option.none
    rw [hCnil]
    rfl
  · rw [alloc_fst]
    have hfree : (ieee802154_free
        (allocIter C ( ieee802154_initialize C conns0)) c).free =
        (List.range C).drop C ++ [c] := by
      rw [hK C]
      rfl
    rw [hfree, hCnil]
    rfl

/-- C4 witness: with capacity 1, the first acquire succeeds, the second
returns no value, and after releasing slot 0 an acquire succeeds again. -/
theorem alloc_capacity_witness :
    ((ieee802154_alloc (allocIter 0 ( ieee802154_initialize 1
        (fun _ => conn0)))).1).isSome = true ∧
      (allocIter 1 ( ieee802154_initialize 1 (fun _ => conn0))).free = [] ∧
      (ieee802154_alloc (allocIter 1 ( ieee802154_initialize 1
        (fun _ => conn0)))).1 = Option.none ∧
      ((ieee802154_alloc (ieee802154_free
          (allocIter 1 ( ieee802154_initialize 1 (fun _ => conn0))) 0)).1).isSome
        = true :=
  alloc_capacity 1 (fun _ => conn0) 0 0 (by decide) (by decide)

/-- C5: whenever the free queue is non-empty, `ieee802154_alloc` returns
exactly its head, removes it from FREE, appends that same slot to the tail
of ACTIVE, and (in any reachable state) the returned handle was not already
present in ACTIVE. -/
theorem alloc_pops_free_head (C : Nat) (s : PoolState) (c : Nat)
    (rest : List Nat) (hr : Reachable C s) (hf : s.free = c :: rest) :
    (ieee802154_alloc s).1 = Option.some c ∧
      (ieee802154_alloc s).2.free = rest ∧
      (ieee802154_alloc s).2.active = s.active ++ [c] ∧
      c ∉ s.active := by
  have h4 : c ∉ s.active := by
    have hnd := inv_nodup (reachable_inv hr)
    rw [List.nodup_append] at hnd
    exact fun ha =>
      hnd.2.2 (by rw [hf]; exact List.mem_cons_self c rest) ha
  exact ⟨by simp [ieee802154_alloc, hf], by simp [ieee802154_alloc, hf],
    by simp [ieee802154_alloc, hf], h4⟩

/-- C5 witness: on the freshly initialized capacity-1 pool, acquire
returns slot 0 (the head of FREE), leaves FREE empty, appends 0 to ACTIVE,
and 0 was not active before. -/
theorem alloc_pops_free_head_witness :
    (ieee802154_alloc pool1).1 = Option.some 0 ∧
      (ieee802154_alloc pool1).2.free = [] ∧
      (ieee802154_alloc pool1).2.active = pool1.active ++ [0] ∧
      0 ∉ pool1.active :=
  alloc_pops_free_head 1 pool1 0 [] (Reachable.init (fun _ => conn0))
    (by decide)

/-- C6: in every state reachable from `ieee802154_initialize` by acquire
and release operations, each slot index `i < C` is a member of exactly one
of FREE and ACTIVE, and |FREE| + |ACTIVE| = C; the initialized pool seeds
FREE with all `C` slots in array order. -/
theorem reachable_membership (C : Nat) (conns0 : Nat → Conn)
    (s : PoolState) (i : Nat) (hr : Reachable C s) (hi : i < C) :
    ((i ∈ s.free ∧ i ∉ s.active) ∨ (i ∈ s.active ∧ i ∉ s.free)) ∧
      s.free.length + s.active.length = C ∧
      ( ieee802154_initialize C conns0).free = List.range C := by
  have hp : poolInv C s := reachable_inv hr
  have hnd := inv_nodup hp
  rw [List.nodup_append] at hnd
  have hmem : i ∈ s.free ++ s.active :=
    (List.Perm.mem_iff hp).mpr (List.mem_range.mpr hi)
  rw [List.mem_append] at hmem
  refine ⟨?_, ?_, rfl⟩
  · rcases hmem with hf | ha
    · exact Or.inl ⟨hf, fun ha => hnd.2.2 hf ha⟩
    · exact Or.inr ⟨ha, fun hf => hnd.2.2 hf ha⟩
  · have hl := hp.length_eq
    rw [List.length_append, List.length_range] at hl
    exact hl

/-- C6 witness: after one acquire on the capacity-2 pool, slot 0 is in
exactly one queue, the queue lengths sum to 2, and initialization seeded
FREE with [0, 1]. -/
theorem reachable_membership_witness :
    ((0 ∈ (ieee802154_alloc pool2).2.free ∧
        0 ∉ (ieee802154_alloc pool2).2.active) ∨
      (0 ∈ (ieee802154_alloc pool2).2.active ∧
        0 ∉ (ieee802154_alloc pool2).2.free)) ∧
      (ieee802154_alloc pool2).2.free.length +
        (ieee802154_alloc pool2).2.active.length = 2 ∧
      ( ieee802154_initialize 2 (fun _ => conn0)).free = List.range 2 :=
  reachable_membership 2 (fun _ => conn0) (ieee802154_alloc pool2).2 0
    (Reachable.alloc pool2 (Reachable.init (fun _ => conn0))) (by decide)

/-- C7: releasing an active endpoint with reference count 0 removes
exactly that endpoint from ACTIVE (keeping the relative order of the
others), appends it to the tail of FREE, and leaves every record's fields
— including the released slot's addresses — unchanged. -/
theorem free_removes_active (s : PoolState) (c : Nat) (l1 l2 : List Nat)
    (_hcref : (s.conns c).crefs = 0) (hact : s.active = l1 ++ c :: l2)
    (hl1 : c ∉ l1) :
    (ieee802154_free s c).free = s.free ++ [c] ∧
      (ieee802154_free s c).active = l1 ++ l2 ∧
      (ieee802154_free s c).conns = s.conns := by
  refine ⟨rfl, ?_, rfl⟩
  show s.active.erase c = l1 ++ l2
  rw [hact, List.erase_append_right _ hl1, List.erase_cons_head]

/-- C7 witness: releasing slot 0 from the active list [0, 1] yields active
[1], free [0], with all record contents untouched. -/
theorem free_removes_active_witness :
    (ieee802154_free poolF 0).free = poolF.free ++ [0] ∧
      (ieee802154_free poolF 0).active = [] ++ [1] ∧
      (ieee802154_free poolF 0).conns = poolF.conns :=
  free_removes_active poolF 0 [] [1] (by decide) (by decide) (by decide)

/-- C8: `ieee802154_nextconn` with NULL returns the head of ACTIVE; with
an active handle `c` (at position `l1 ++ c :: l2` of the duplicate-free
active queue) it returns the immediately following link, i.e. the head of
`l2`; and feeding results back starting from NULL visits every active
handle exactly once in order, terminating with no value. -/
theorem nextconn_enumerates (s : PoolState) (c : Nat) (l1 l2 : List Nat)
    (hnd : s.active.Nodup) (hact : s.active = l1 ++ c :: l2) :
    (ieee802154_nextconn s Option.none).1 = s.active.head? ∧
      (ieee802154_nextconn s (Option.some c)).1 = l2.head? ∧
      iterNext s (s.active.length + 1) Option.none = s.active := by
  refine ⟨rfl, ?_, iterNext_all s hnd⟩
  show nextAfter s.active c = l2.head?
  rw [hact, nextAfter_eq l1 c l2 (hact ▸ hnd)]

/-- C8 witness: on the pool with active list [0, 1], NULL yields the head,
the successor of 0 is 1, and the full enumeration reproduces [0, 1]. -/
theorem nextconn_enumerates_witness :
    (ieee802154_nextconn poolF Option.none).1 = poolF.active.head? ∧
      (ieee802154_nextconn poolF (Option.some 0)).1 = [1].head? ∧
      iterNext poolF (poolF.active.length + 1) Option.none = poolF.active :=
  nextconn_enumerates poolF 0 [] [1] (by decide) (by decide)

/-- C9: `ieee802154_active` and `ieee802154_nextconn` are read-only: for
every pool state and input, the post-state (second component of the
state-passing translation) equals the pre-state, so the FREE list, the
ACTIVE list and every record field are unchanged. -/
theorem active_nextconn_readonly (s : PoolState) (meta : DataInd)
    (prev : Option Nat) :
    (ieee802154_active s meta).2 = s ∧
      (ieee802154_nextconn s prev).2 = s := by
  cases prev <;> exact ⟨rfl, rfl⟩

/-- C10: any handle returned by `ieee802154_active` is a member of the
ACTIVE list at the time of the call, and on a pool whose ACTIVE list is
empty the function returns no match. -/
theorem active_returns_member (s : PoolState) (meta : DataInd) (c : Nat)
    (h : (ieee802154_active s meta).1 = Option.some c) :
    c ∈ s.active ∧
      (ieee802154_active { s with active := [] } meta).1 = Option.none :=
  ⟨scanActive_mem s.conns meta s.active c h, rfl⟩

/-- C10 witness: on the pool whose single active slot 0 matches the frame,
the returned handle 0 is in the active list, and the scan of an emptied
active list returns no match. -/
theorem active_returns_member_witness :
    0 ∈ poolM.active ∧
      (ieee802154_active { poolM with active := [] } metaS).1 =
        Option.none :=
  active_returns_member poolM metaS 0 (by decide)

end NuttxIEEE802154
